import Mathlib

set_option maxHeartbeats 1000000
set_option maxRecDepth 100000

/-!
Verification of `ashby_slug_discovery.py` (the "catchme company tracker").

The Python source is shallowly embedded below.  Pure string manipulation
(`str.strip`, `str.split`, `str.lower`, substring tests, `urllib.parse.urlparse`)
is modelled character-for-character on `List Char`; network calls are modelled
by passing the (abstract) HTTP responses as explicit inputs; the `csv` module is
modelled at the record level (a file is a list of rows, each row a list of
fields), matching the module's round-trip guarantee; Python `dict`s are modelled
as association lists with insertion-order semantics (update-in-place keeps the
position of a key, a fresh key is appended).

Notes on modelling depth:
* `urlparse` is modelled after CPython 3.11.6: strip of leading C0-control
  and space characters, removal of the unsafe bytes tab/CR/LF everywhere,
  scheme split at the first `:` when the candidate scheme is
  alphanumeric-plus-`+-.` with a leading letter, authority split after `//` up
  to the first of `/`, `?`, `#`, then fragment split at the first `#`, then
  query split at the first `?`, and finally — for schemes in `uses_params` —
  the `;params` split off the last path segment.  The `ValueError` CPython
  raises on unbalanced square brackets in the authority (invalid IPv6
  literals) is not modelled; all statements about URLs are read over
  bracket-free inputs.
* Lowercasing is ASCII lowercasing (the slugs and hosts involved are ASCII).
-/

namespace Ashby

/-- Python whitespace for `str.strip()`: space, tab, LF, CR, VT, FF. -/
def isPySpace (c : Char) : Bool :=
  c = ' ' || c = '\t' || c = '\n' || c = '\r' || c = '\x0b' || c = '\x0c'

/-- Strip characters satisfying `p` from both ends of a character list. -/
def stripWhile (p : Char → Bool) (l : List Char) : List Char :=
  ((l.dropWhile p).reverse.dropWhile p).reverse

/-- Python `s.strip()` (no argument): strip whitespace from both ends. -/
def pyStrip (l : List Char) : List Char := stripWhile isPySpace l

/-- Python `s.strip('/')`: strip slashes from both ends. -/
def stripSlashes (l : List Char) : List Char := stripWhile (· = '/') l

/-- Python `s.lower()` restricted to ASCII (sufficient for the data involved). -/
def pyLower (l : List Char) : List Char := l.map Char.toLower

/-- Python `s.split(sep)` for a one-character separator: always returns at
least one (possibly empty) piece. -/
def pySplit (sep : Char) : List Char → List (List Char)
  | [] => [[]]
  | c :: rest =>
    if c = sep then [] :: pySplit sep rest
    else
      match pySplit sep rest with
      | [] => [[c]]
      | h :: t => (c :: h) :: t

/-- Python `s.split(sep)[0]`: everything before the first occurrence of `sep`
(the whole string when `sep` does not occur). -/
def takeUntil (sep : Char) (l : List Char) : List Char := l.takeWhile (· ≠ sep)

/-- Python's substring test `needle in hay` on character lists. -/
def containsSub (needle : List Char) : List Char → Bool
  | [] => needle.isEmpty
  | c :: rest => needle.isPrefixOf (c :: rest) || containsSub needle rest

/-- Components produced by the `urlparse` model, in `ParseResult` order. -/
structure UrlParts where
  scheme : List Char
  netloc : List Char
  path : List Char
  params : List Char
  query : List Char
  fragment : List Char
deriving Repr, DecidableEq

/-- Characters allowed in a URL scheme (CPython's `scheme_chars`). -/
def isSchemeChar (c : Char) : Bool :=
  c.isAlpha || c.isDigit || c = '+' || c = '-' || c = '.'

/-- CPython (3.11.4+) strips leading WHATWG C0-control-or-space characters
(codepoints 0x00–0x20) from the URL first. -/
def lstripControl (l : List Char) : List Char :=
  l.dropWhile (fun c => c.toNat ≤ 32)

/-- CPython then removes the unsafe bytes tab, CR and LF everywhere. -/
def dropTabCrLf (l : List Char) : List Char :=
  l.filter (fun c => c ≠ '\t' && c ≠ '\r' && c ≠ '\n')

/-- Scheme split: at the first `:`, provided a nonempty candidate scheme that
starts with a letter and consists of scheme characters precedes it. -/
def splitScheme (l : List Char) : List Char × List Char :=
  match l.findIdx? (· = ':') with
  | none => ([], l)
  | some i =>
    if 0 < i then
      match l.take i with
      | [] => ([], l)
      | c0 :: pre =>
        if c0.isAlpha && (c0 :: pre).all isSchemeChar then
          (pyLower (c0 :: pre), l.drop (i + 1))
        else ([], l)
    else ([], l)

/-- Authority split: after a leading `//`, the netloc extends to the first of
`/`, `?`, `#`; otherwise there is no netloc. -/
def splitNetloc (l : List Char) : List Char × List Char :=
  match l with
  | '/' :: '/' :: rest =>
    (rest.takeWhile (fun c => c ≠ '/' && c ≠ '?' && c ≠ '#'),
     rest.dropWhile (fun c => c ≠ '/' && c ≠ '?' && c ≠ '#'))
  | _ => ([], l)

/-- Split at the first occurrence of `sep`: `(before, after)`; when `sep` does
not occur the second component is empty, matching CPython's conditional
one-time `split`. -/
def splitFirst (sep : Char) (l : List Char) : List Char × List Char :=
  (l.takeWhile (· ≠ sep), (l.dropWhile (· ≠ sep)).drop 1)

/-- Model of CPython's `urlsplit` (the core of `urlparse`; its result leaves
the `params` component empty). -/
def urlsplit (url : String) : UrlParts :=
  let u0 := dropTabCrLf (lstripControl url.data)
  let s := splitScheme u0
  let n := splitNetloc s.2
  let f := splitFirst '#' n.2
  let q := splitFirst '?' f.1
  ⟨s.1, n.1, q.1, [], q.2, f.2⟩

/-- CPython's `uses_params`: the schemes whose URLs carry `;params`
(3.11.6's list, the empty scheme included). -/
def uses_params : List (List Char) :=
  [[], "ftp".data, "hdl".data, "prospero".data, "http".data, "imap".data,
   "https".data, "shttp".data, "rtsp".data, "rtsps".data, "rtspu".data,
   "sip".data, "sips".data, "mms".data, "sftp".data, "tel".data]

/-- CPython's `_splitparams` on the path: cut everything from the first `;`
at or after the last `/` (from the first `;` anywhere when the path has no
`/`), returning the truncated path and the parameters.  `urlparse` only calls
it when the path does contain a `;`. -/
def splitparams (path : List Char) : List Char × List Char :=
  if path.contains '/' then
    if ((path.reverse.takeWhile (· ≠ '/')).reverse).contains ';' then
      ((path.reverse.dropWhile (· ≠ '/')).reverse
          ++ ((path.reverse.takeWhile (· ≠ '/')).reverse).takeWhile (· ≠ ';'),
       ((((path.reverse.takeWhile (· ≠ '/')).reverse).dropWhile (· ≠ ';')).drop 1))
    else (path, [])
  else (path.takeWhile (· ≠ ';'), (path.dropWhile (· ≠ ';')).drop 1)

/-- Model of `urllib.parse.urlparse` (CPython 3.11.6): `urlsplit`, then — for
a scheme in `uses_params` with a `;` in the path — the `;params` split off
the last path segment. -/
def urlparse (url : String) : UrlParts :=
  let u := urlsplit url
  if uses_params.contains u.scheme && u.path.contains ';' then
    { u with path := (splitparams u.path).1, params := (splitparams u.path).2 }
  else u

/-- The target platform's domain (`BASE_URL` in the source). -/
def BASE_URL : String := "jobs.ashbyhq.com"

/-- Embedding of `extract_slug_from_url` (`ashby_slug_discovery.py`, lines
37–48): parse the URL; if `BASE_URL` occurs in the netloc, take the first
segment of the slash-stripped path; if nonempty, lowercase it, strip
whitespace, drop anything from a `?` or `#` on, and return it when still
nonempty; otherwise return `None`. -/
def extract_slug_from_url (url : String) : Option String :=
  let parsed := urlparse url
  if containsSub BASE_URL.data parsed.netloc then
    match pySplit '/' (stripSlashes parsed.path) with
    | [] => none
    | p0 :: _ =>
      if p0 ≠ [] then
        let slug := pyStrip (pyLower p0)
        let slug := takeUntil '#' (takeUntil '?' slug)
        if slug ≠ [] then some (String.mk slug) else none
      else none
  else none

/-- First segment of the slash-stripped path, as the spec words it. -/
def firstPathSegment (path : List Char) : List Char :=
  (pySplit '/' (stripSlashes path)).headD []

/-- Modelled from the spec: the Slug Extractor `extract(url)` — "Parses the
URL; returns none unless the URL's host matches the target platform's domain.
Takes the first path segment, strips any query string or fragment, lowercases,
trims whitespace.  Returns none for an empty result."  (Host matching is the
source's containment test of the domain in the netloc.) -/
def extractSpec (url : String) : Option String :=
  let parsed := urlparse url
  if containsSub BASE_URL.data parsed.netloc then
    let seg := firstPathSegment parsed.path
    let seg := takeUntil '#' (takeUntil '?' seg)
    let seg := pyStrip (pyLower seg)
    if seg ≠ [] then some (String.mk seg) else none
  else none

/-- Packing a valid codepoint and unpacking it is the identity. -/
theorem char_toNat_ofNat {n : Nat} (h : n.isValidChar) : (Char.ofNat n).toNat = n := by
  rw [Char.ofNat, dif_pos h]
  rfl

/-- ASCII lowercasing never produces a character below code 97 other than the
input itself. -/
theorem toLower_ne_of_lt {c s : Char} (hs : s.toNat < 97) (h : c ≠ s) :
    Char.toLower c ≠ s := by
  simp only [Char.toLower]
  split
  · next hn =>
    intro he
    have hv : (c.toNat + 32).isValidChar := Or.inl (by omega)
    have ht := char_toNat_ofNat hv
    rw [he] at ht
    omega
  · exact h

theorem mem_stripWhile {p : Char → Bool} {l : List Char} {c : Char}
    (h : c ∈ stripWhile p l) : c ∈ l := by
  unfold stripWhile at h
  exact List.dropWhile_subset _ (List.mem_reverse.mp
    (List.dropWhile_subset _ (List.mem_reverse.mp h)))

theorem pySplit_ne_nil (sep : Char) (l : List Char) : pySplit sep l ≠ [] := by
  induction l with
  | nil => simp [pySplit]
  | cons a rest ih =>
    rw [pySplit]
    split
    · simp
    · cases hq : pySplit sep rest with
      | nil => exact absurd hq ih
      | cons hh tt => simp

theorem mem_headD_pySplit {sep : Char} {l : List Char} {c : Char}
    (h : c ∈ (pySplit sep l).headD []) : c ∈ l := by
  induction l with
  | nil => simp [pySplit] at h
  | cons a rest ih =>
    rw [pySplit] at h
    by_cases ha : a = sep
    · simp [ha] at h
    · simp only [if_neg ha] at h
      cases hq : pySplit sep rest with
      | nil => exact absurd hq (pySplit_ne_nil _ _)
      | cons hh tt =>
        rw [hq] at h
        simp only [List.headD_cons] at h
        rcases List.mem_cons.mp h with h | h
        · simp [h]
        · have : c ∈ (pySplit sep rest).headD [] := by
            rw [hq]; simpa using h
          exact List.mem_cons_of_mem _ (ih this)

theorem takeUntil_eq_self {sep : Char} {l : List Char} (h : ∀ c ∈ l, c ≠ sep) :
    takeUntil sep l = l := by
  unfold takeUntil
  exact List.takeWhile_eq_self_iff.mpr (by simpa using h)

/-- Characters of the path produced by `urlsplit` never include `?` or `#`:
the fragment was cut at the first `#`, the query at the first `?`. -/
theorem urlsplit_path_no_query_fragment (url : String) :
    ∀ c ∈ (urlsplit url).path, c ≠ '?' ∧ c ≠ '#' := by
  intro c hc
  have hq : c ∈ (splitFirst '#' (splitNetloc (splitScheme
      (dropTabCrLf (lstripControl url.data))).2).2).1.takeWhile (· ≠ '?') := hc
  constructor
  · have := List.mem_takeWhile_imp hq
    simpa using this
  · have h1 : c ∈ (splitFirst '#' (splitNetloc (splitScheme
        (dropTabCrLf (lstripControl url.data))).2).2).1 := List.takeWhile_subset _ hq
    have := List.mem_takeWhile_imp h1
    simpa using this

/-- Characters of the params-stripped path all come from the path. -/
theorem mem_splitparams_fst {path : List Char} {c : Char}
    (h : c ∈ (splitparams path).1) : c ∈ path := by
  unfold splitparams at h
  by_cases h1 : path.contains '/'
  · rw [if_pos h1] at h
    by_cases h2 : ((path.reverse.takeWhile (· ≠ '/')).reverse).contains ';'
    · rw [if_pos h2] at h
      rcases List.mem_append.mp h with h | h
      · exact List.mem_reverse.mp
          (List.dropWhile_subset _ (List.mem_reverse.mp h))
      · exact List.mem_reverse.mp
          (List.takeWhile_subset _ (List.mem_reverse.mp (List.takeWhile_subset _ h)))
    · rw [if_neg h2] at h
      exact h
  · rw [if_neg h1] at h
    exact List.takeWhile_subset _ h

/-- Characters of the path produced by `urlparse` never include `?` or `#`. -/
theorem urlparse_path_no_query_fragment (url : String) :
    ∀ c ∈ (urlparse url).path, c ≠ '?' ∧ c ≠ '#' := by
  intro c hc
  simp only [urlparse] at hc
  by_cases hcond : (uses_params.contains (urlsplit url).scheme
      && (urlsplit url).path.contains ';') = true
  · rw [if_pos hcond] at hc
    exact urlsplit_path_no_query_fragment url c (mem_splitparams_fst hc)
  · rw [if_neg hcond] at hc
    exact urlsplit_path_no_query_fragment url c hc

/-- The source's extractor agrees with the spec-worded extractor on every URL. -/
theorem extract_eq_extractSpec (url : String) :
    extract_slug_from_url url = extractSpec url := by
  unfold extract_slug_from_url extractSpec
  by_cases hin : containsSub BASE_URL.data (urlparse url).netloc = true
  · have hpath := urlparse_path_no_query_fragment url
    cases hq : pySplit '/' (stripSlashes (urlparse url).path) with
    | nil => exact absurd hq (pySplit_ne_nil _ _)
    | cons p0 t =>
      have hp0 : ∀ c ∈ p0, c ≠ '?' ∧ c ≠ '#' := by
        intro c hc
        have hm : c ∈ (pySplit '/' (stripSlashes (urlparse url).path)).headD [] := by
          rw [hq]; simpa using hc
        exact hpath c (mem_stripWhile (mem_headD_pySplit hm))
      have hseg : firstPathSegment (urlparse url).path = p0 := by
        unfold firstPathSegment; rw [hq]; rfl
      have hslug : ∀ c ∈ pyStrip (pyLower p0), c ≠ '?' ∧ c ≠ '#' := by
        intro c hc
        have hc1 : c ∈ pyLower p0 := mem_stripWhile hc
        obtain ⟨d, hd, hdc⟩ := List.mem_map.mp hc1
        subst hdc
        exact ⟨toLower_ne_of_lt (by decide) (hp0 d hd).1,
               toLower_ne_of_lt (by decide) (hp0 d hd).2⟩
      have e2 : takeUntil '#' (takeUntil '?' (pyStrip (pyLower p0)))
          = pyStrip (pyLower p0) := by
        rw [takeUntil_eq_self (fun c hc => (hslug c hc).1)]
        exact takeUntil_eq_self (fun c hc => (hslug c hc).2)
      have e4 : takeUntil '#' (takeUntil '?' p0) = p0 := by
        rw [takeUntil_eq_self (fun c hc => (hp0 c hc).1)]
        exact takeUntil_eq_self (fun c hc => (hp0 c hc).2)
      by_cases hp0e : p0 = []
      · subst hp0e
        simp [hin, hq, hseg, takeUntil, pyStrip, pyLower, stripWhile]
      · simp [hin, hq, hseg, e2, e4, hp0e]
  · simp [hin]

/-- C1: for every URL whose netloc contains the target platform's domain,
`extract_slug_from_url` returns the first segment of the `urlparse`d path
lowercased, whitespace-trimmed, query/fragment stripped (none when that
segment is empty) — stated as agreement with the spec-worded extractor
`extractSpec` over the shared `urlparse` model — and for every URL on an
unrelated host it returns none.  In particular the spec's example URL (read
at the target domain, which the spec anonymises as `jobs.example.com`) yields
`acme-co`, and the literal `jobs.example.com` host, being unrelated to the
configured `BASE_URL`, yields none.  The last two conjuncts exercise
`urlparse`'s `;params` split of the last path segment and its strip of
leading control-or-space characters, matching CPython 3.11.6. -/
theorem C1_slug_extraction_correct :
    (∀ url : String, extract_slug_from_url url = extractSpec url)
    ∧ (∀ url : String, containsSub BASE_URL.data (urlparse url).netloc = false →
        extract_slug_from_url url = none)
    ∧ extract_slug_from_url "https://jobs.ashbyhq.com/acme-co?utm=x#section"
        = some "acme-co"
    ∧ extract_slug_from_url "https://jobs.example.com/acme-co?utm=x#section"
        = none
    ∧ extract_slug_from_url "https://jobs.ashbyhq.com/acme;jsessionid=123"
        = some "acme"
    ∧ extract_slug_from_url " https://jobs.ashbyhq.com/acme-co"
        = some "acme-co" := by
  refine ⟨extract_eq_extractSpec, ?_, by decide, by decide, by decide, by decide⟩
  intro url h
  unfold extract_slug_from_url
  simp [h]

/-- Witness for C1 at a concrete unrelated-host URL. -/
theorem C1_slug_extraction_correct_witness :
    extract_slug_from_url "https://www.google.com/acme-co" = none :=
  C1_slug_extraction_correct.2.1 "https://www.google.com/acme-co" (by decide)

/-- Lowercase letters as enumerated by the source's generation loops. -/
def lettersAZ : List Char := "abcdefghijklmnopqrstuvwxyz".data

/-- Digits as enumerated by the source's generation loops. -/
def digitChars : List Char := "0123456789".data

/-- Embedding of the prefix list built at the top of
`discover_via_google_exhaustive` (lines 197–225): the empty string, the single
letters `chr(97)`..`chr(122)`, the single digits `str(0)`..`str(9)`, all
letter-letter pairs, all letter-digit pairs, all digit-letter pairs, in the
order the Python loops append them. -/
def prefixes : List String :=
  [""]
    ++ (List.range' 97 26).map (fun n => String.mk [Char.ofNat n])
    ++ (List.range 10).map (fun i => toString i)
    ++ lettersAZ.flatMap (fun c1 => lettersAZ.map (fun c2 => String.mk [c1, c2]))
    ++ lettersAZ.flatMap (fun c1 => digitChars.map (fun c2 => String.mk [c1, c2]))
    ++ digitChars.flatMap (fun c1 => lettersAZ.map (fun c2 => String.mk [c1, c2]))

/-- Injection of the generated strings into numbers that is strictly
increasing along the generated order (a proof gadget for distinctness). -/
def prefixCode (s : String) : Nat :=
  match s.data with
  | [] => 0
  | [c] => (if c.isLower then 1000000 else 2000000) + c.toNat
  | [c1, c2] =>
    (if c1.isLower then (if c2.isLower then 3000000 else 4000000) else 5000000)
      + c1.toNat * 1000 + c2.toNat
  | _ => 6000000

/-- Boolean test that a list of numbers is strictly increasing. -/
def strictIncr : List Nat → Bool
  | [] => true
  | [_] => true
  | a :: b :: rest => decide (a < b) && strictIncr (b :: rest)

theorem strictIncr_pairwise :
    ∀ {l : List Nat}, strictIncr l = true → l.Pairwise (· < ·) := by
  intro l
  induction l with
  | nil => intro _; exact List.Pairwise.nil
  | cons a rest ih =>
    intro h
    cases rest with
    | nil => exact List.pairwise_singleton _ _
    | cons b rest' =>
      rw [strictIncr, Bool.and_eq_true, decide_eq_true_eq] at h
      have hp := ih h.2
      refine List.Pairwise.cons ?_ hp
      intro x hx
      rcases List.mem_cons.mp hx with hx | hx
      · subst hx; exact h.1
      · exact Nat.lt_trans h.1 (List.rel_of_pairwise_cons hp hx)

theorem prefixes_nodup : prefixes.Nodup := by
  have hcode : strictIncr (prefixes.map prefixCode) = true := by decide
  have hpw : (prefixes.map prefixCode).Pairwise (· < ·) :=
    strictIncr_pairwise hcode
  have hnd : (prefixes.map prefixCode).Nodup :=
    hpw.imp (fun h => Nat.ne_of_lt h)
  exact List.Nodup.of_map prefixCode hnd

/-- C2: the generated prefix sequence has no duplicates and its set has
exactly `1 + 26 + 10 + 26*26 + 26*10 + 10*26 = 1233` unique elements (the
empty prefix, single letters, single digits, and the three kinds of pairs are
visible as the six blocks of the definition of `prefixes`). -/
theorem C2_prefix_coverage :
    prefixes.Nodup
    ∧ prefixes.length = 1 + 26 + 10 + 26 * 26 + 26 * 10 + 10 * 26
    ∧ prefixes.toFinset.card = 1233 := by
  refine ⟨prefixes_nodup, by decide, ?_⟩
  rw [List.toFinset_card_of_nodup prefixes_nodup]
  decide

/-- Search response as consumed by the pagination loop: the optional `items`
array of result links (absent when the JSON lacks the key) and the optional
`queries.nextPage[0].startIndex` cursor. -/
structure SearchResponse where
  items : Option (List String)
  nextStart : Option Nat
deriving Repr, DecidableEq

/-- Body of the per-page item loop (lines 245–250): extract a slug from each
link and add it to the accumulator when new. -/
def addSlugs (acc : List String) (links : List String) : List String :=
  links.foldl (fun acc link =>
    match extract_slug_from_url link with
    | none => acc
    | some slug => if acc.contains slug then acc else acc ++ [slug]) acc

/-- Embedding of the per-query pagination loop of
`discover_via_google_exhaustive` (lines 235–259).  The Search Client's
response for each start index is supplied as a function (`none` models a
failed or absent result).  The unbounded `while` is given explicit fuel:
`none` means the fuel ran out with the loop still running, `some acc` means
the loop exited by one of its `break`s or by the `start_index > 100` guard. -/
def pageLoop (client : Nat → Option SearchResponse) :
    Nat → Nat → List String → Option (List String)
  | 0, _, _ => none
  | fuel + 1, start_index, acc =>
    if start_index ≤ 100 then
      match client start_index with
      | none => some acc
      | some r =>
        match r.items with
        | none => some acc
        | some links =>
          match r.nextStart with
          | none => some (addSlugs acc links)
          | some s' => pageLoop client fuel s' (addSlugs acc links)
    else some acc

/-- A Search Client that always reports a next-page cursor — pointing back at
start index 1. -/
def stuckClient : Nat → Option SearchResponse :=
  fun _ => some ⟨some ["https://jobs.ashbyhq.com/acme-co"], some 1⟩

theorem pageLoop_stuckClient (fuel s : Nat) (acc : List String) (hs : s ≤ 100) :
    pageLoop stuckClient fuel s acc = none := by
  induction fuel generalizing s acc with
  | zero => rfl
  | succ fuel ih =>
    rw [pageLoop]
    simp only [if_pos hs, stuckClient]
    exact ih 1 _ (by omega)

/-- Counterexample to C3 as stated: against a Search Client that always
reports a next-page cursor (namely one that keeps reporting start index 1,
which the loop adopts verbatim from the response), the per-query pagination
loop never exits — no amount of fuel completes it. -/
theorem C3_pagination_counterexample :
    ¬ ∃ fuel res, pageLoop stuckClient fuel 1 [] = some res := by
  rintro ⟨fuel, res, h⟩
  rw [pageLoop_stuckClient fuel 1 [] (by omega)] at h
  exact Option.noConfusion h

/-- Amended C3: the loop terminates provided every next-page cursor the
client reports strictly exceeds the current start index (as the real search
API's cursors do); it then completes within 101 iterations, stopping once the
start index exceeds 100, and otherwise stops as soon as no result or no
`items` come back or no next-page cursor is present. -/
theorem C3_pagination_terminates :
    (∀ client : Nat → Option SearchResponse,
      (∀ s r s', client s = some r → r.nextStart = some s' → s < s') →
      ∃ res, pageLoop client 101 1 [] = some res)
    ∧ (∀ client fuel s acc, 100 < s → pageLoop client (fuel + 1) s acc = some acc)
    ∧ (∀ client fuel s acc, s ≤ 100 → client s = none →
        pageLoop client (fuel + 1) s acc = some acc)
    ∧ (∀ client fuel s acc r, s ≤ 100 → client s = some r → r.items = none →
        pageLoop client (fuel + 1) s acc = some acc)
    ∧ (∀ client fuel s acc r links, s ≤ 100 → client s = some r →
        r.items = some links → r.nextStart = none →
        pageLoop client (fuel + 1) s acc = some (addSlugs acc links)) := by
  refine ⟨?_, ?_, ?_, ?_, ?_⟩
  · intro client hmono
    suffices h : ∀ fuel s acc, 102 ≤ fuel + s → 1 ≤ fuel →
        ∃ res, pageLoop client fuel s acc = some res by
      exact h 101 1 [] (by omega) (by omega)
    intro fuel
    induction fuel with
    | zero => intro s acc _ h1; omega
    | succ fuel ih =>
      intro s acc htot _
      by_cases hs : s ≤ 100
      · cases hc : client s with
        | none => exact ⟨acc, by simp [pageLoop, hs, hc]⟩
        | some r =>
          cases hi : r.items with
          | none => exact ⟨acc, by simp [pageLoop, hs, hc, hi]⟩
          | some links =>
            cases hn : r.nextStart with
            | none => exact ⟨addSlugs acc links, by simp [pageLoop, hs, hc, hi, hn]⟩
            | some s' =>
              have hlt : s < s' := hmono s r s' hc hn
              obtain ⟨res, hres⟩ := ih s' (addSlugs acc links) (by omega) (by omega)
              exact ⟨res, by simp [pageLoop, hs, hc, hi, hn, hres]⟩
      · exact ⟨acc, by simp [pageLoop, hs]⟩
  · intro client fuel s acc hs
    have hns : ¬ s ≤ 100 := by omega
    simp [pageLoop, hns]
  · intro client fuel s acc hs hc
    simp [pageLoop, hs, hc]
  · intro client fuel s acc r hs hc hi
    simp [pageLoop, hs, hc, hi]
  · intro client fuel s acc r links hs hc hi hn
    simp [pageLoop, hs, hc, hi, hn]

/-- A Search Client that always reports a next-page cursor that advances by
the page size, as the real API does. -/
def advancingClient : Nat → Option SearchResponse :=
  fun s => some ⟨some ["https://jobs.ashbyhq.com/acme-co"], some (s + 10)⟩

/-- Witness for the amended C3 at a concrete always-paginating client. -/
theorem C3_pagination_terminates_witness :
    ∃ res, pageLoop advancingClient 101 1 [] = some res :=
  C3_pagination_terminates.1 advancingClient (by
    intro s r s' hr hn
    simp only [advancingClient, Option.some.injEq] at hr
    rw [← hr] at hn
    simp only [Option.some.injEq] at hn
    omega)

/-- An HTTP response: status code and body text. -/
structure HttpResponse where
  statusCode : Nat
  body : String
deriving Repr, DecidableEq

/-- Python's `content.count('<job>')`: non-overlapping occurrences, scanning
from the left. -/
def countJobTags : List Char → Nat
  | '<' :: 'j' :: 'o' :: 'b' :: '>' :: rest => 1 + countJobTags rest
  | _ :: rest => countJobTags rest
  | [] => 0

/-- Embedding of `check_job_postings_via_api` (lines 59–72), with the feed
endpoint's response passed explicitly (`none` models a transport error): a
200 answer counts `<job>` tags in the body, anything else yields no count and
an explanatory status. -/
def check_job_postings_via_api (resp : Option HttpResponse) : Option Nat × String :=
  match resp with
  | none => (none, "API Error")
  | some r =>
    if r.statusCode = 200 then (some (countJobTags r.body.data), "API Success")
    else (none, "API returned " ++ toString r.statusCode)

/-- A fetched tenant landing page, with the outcomes of the stdlib text
analyses recorded as data: `hasNoJobsIndicator` is whether one of the six
"no openings" phrases occurs in the lowercased page, `patternMatchCounts`
lists, per job-listing regex of `patterns`, the number of matches
`re.findall` returns, and `jsonLdJobPostingCounts` lists, per
`application/ld+json` script block, the number of JobPosting records the
block contributes (0 for a block that fails to parse or has none). -/
structure PageAnalysis where
  statusCode : Nat
  hasNoJobsIndicator : Bool
  patternMatchCounts : List Nat
  jsonLdJobPostingCounts : List Nat
deriving Repr, DecidableEq

/-- Embedding of `check_job_postings_via_page` (lines 74–129), with the page
fetch passed explicitly (`none` models a transport error): non-200 and
"no openings" pages yield 0; otherwise the four regex match counts are folded
with `max` into `job_count`, and each JSON-LD block's JobPosting count is then
added onto the same accumulator. -/
def check_job_postings_via_page (fetch : Option PageAnalysis) : Nat × String :=
  match fetch with
  | none => (0, "Page Error")
  | some p =>
    if p.statusCode ≠ 200 then (0, "Page returned " ++ toString p.statusCode)
    else if p.hasNoJobsIndicator then (0, "Page shows no openings message")
    else
      let jc := p.patternMatchCounts.foldl (fun acc n => max acc n) 0
      let jc := p.jsonLdJobPostingCounts.foldl (fun acc n => acc + n) jc
      (jc, "Page scraping")

/-- Embedding of `get_job_count` (lines 131–139): try the feed endpoint; if
it produced a count, return it with its status; otherwise return whatever the
page-scraping fallback produces. -/
def get_job_count (apiResp : Option HttpResponse) (pageResp : Option PageAnalysis) :
    Nat × String :=
  let r := check_job_postings_via_api apiResp
  match r.1 with
  | some n => (n, r.2)
  | none => check_job_postings_via_page pageResp

/-- C4: if the feed endpoint does not answer with success (transport error or
non-200 status), `get_job_count` returns exactly the count and status of the
page-scraping fallback; if the feed endpoint answers 200, its `<job>`-tag
count is returned and the page is never consulted (the result does not depend
on the page input). -/
theorem C4_job_count_fallback :
    (∀ page, get_job_count none page = check_job_postings_via_page page)
    ∧ (∀ r page, r.statusCode ≠ 200 →
        get_job_count (some r) page = check_job_postings_via_page page)
    ∧ (∀ r page, r.statusCode = 200 →
        get_job_count (some r) page = (countJobTags r.body.data, "API Success"))
    ∧ (∀ api page₁ page₂, (check_job_postings_via_api api).1 ≠ none →
        get_job_count api page₁ = get_job_count api page₂) := by
  refine ⟨fun page => rfl, ?_, ?_, ?_⟩
  · intro r page h
    simp [get_job_count, check_job_postings_via_api, h]
  · intro r page h
    simp [get_job_count, check_job_postings_via_api, h]
  · intro api page₁ page₂ h
    cases ha : (check_job_postings_via_api api).1 with
    | none => exact absurd ha h
    | some n => simp [get_job_count, ha]

/-- Witness for C4: a concrete 404 feed answer falls through to the page
result, and a concrete 200 feed answer with two `<job>` tags returns 2. -/
theorem C4_job_count_fallback_witness :
    get_job_count (some ⟨404, ""⟩) (some ⟨200, false, [3], []⟩)
      = check_job_postings_via_page (some ⟨200, false, [3], []⟩)
    ∧ get_job_count (some ⟨200, "<job></job><job></job>"⟩) none
      = (2, "API Success") :=
  ⟨C4_job_count_fallback.2.1 ⟨404, ""⟩ (some ⟨200, false, [3], []⟩) (by decide),
   by
    have h := C4_job_count_fallback.2.2.1 ⟨200, "<job></job><job></job>"⟩ none rfl
    rw [h]
    decide⟩

/-- Counterexample to C5 as stated: on a successful page with one regex match
and one embedded JobPosting record, the code returns 2 — the sum of the two
signals — while the larger of the two is 1. -/
theorem C5_page_merge_counterexample :
    (check_job_postings_via_page (some ⟨200, false, [1, 0, 0, 0], [1]⟩)).1 = 2
    ∧ max (([1, 0, 0, 0] : List Nat).foldr (fun n m => max n m) 0)
        ([1] : List Nat).sum = 1 := by
  constructor
  · decide
  · decide

theorem foldl_max_eq (l : List Nat) (a : Nat) :
    l.foldl (fun x y => max x y) a = max a (l.foldr (fun x y => max x y) 0) := by
  induction l generalizing a with
  | nil => simp
  | cons b t ih => simp [List.foldl_cons, List.foldr_cons, ih (max a b), Nat.max_assoc]

theorem foldl_add_eq (l : List Nat) (a : Nat) :
    l.foldl (fun x y => x + y) a = a + l.sum := by
  induction l generalizing a with
  | nil => simp
  | cons b t ih => simp [List.foldl_cons, ih (a + b), Nat.add_assoc]

/-- Amended C5: in the page-scraping fallback, when the page answers 200 and
no "no openings" phrase matches, the returned count is the SUM of (b) the
maximum match count across the job-listing regex patterns and (c) the total
number of embedded JobPosting records in the typed data blocks (not the
larger of the two). -/
theorem C5_page_merge_amended (p : PageAnalysis) (h200 : p.statusCode = 200)
    (hind : p.hasNoJobsIndicator = false) :
    check_job_postings_via_page (some p)
      = (p.patternMatchCounts.foldr (fun n m => max n m) 0
          + p.jsonLdJobPostingCounts.sum, "Page scraping") := by
  simp only [check_job_postings_via_page, h200, hind]
  rw [foldl_add_eq, foldl_max_eq]
  simp

/-- Witness for the amended C5 at a concrete page: regex counts with maximum
2, JSON-LD blocks totalling 4, result 6. -/
theorem C5_page_merge_amended_witness :
    check_job_postings_via_page (some ⟨200, false, [2, 1, 0, 0], [3, 1]⟩)
      = (6, "Page scraping") := by
  have h := C5_page_merge_amended ⟨200, false, [2, 1, 0, 0], [3, 1]⟩ rfl rfl
  rw [h]
  decide

/-- A registry entry as stored in the CSV-backed dictionary: all values are
strings (`job_count` is written as `str(...)`). -/
structure Entry where
  company_name : String
  first_seen_date : String
  last_checked_date : String
  job_count : String
deriving Repr, DecidableEq

/-- The registry: a Python dict modelled as an association list in insertion
order (unique keys). -/
abbrev Registry := List (String × Entry)

/-- Python `k in dict`. -/
def hasKey (d : Registry) (k : String) : Bool := d.any (fun p => p.1 == k)

/-- Python `dict[k] = v`: replace the value in place when the key exists,
append a fresh key at the end. -/
def dictInsert (d : Registry) (k : String) (v : Entry) : Registry :=
  if hasKey d k then d.map (fun p => if p.1 == k then (k, v) else p)
  else d ++ [(k, v)]

/-- Python `dict[k]` / `find`. -/
def lookupSlug (d : Registry) (k : String) : Option Entry :=
  (d.find? (fun p => p.1 == k)).map (fun p => p.2)

/-- The new-slug computation of `main` (line 423): the discovered collection,
deduplicated as a Python set (first occurrences kept), minus the registry's
keys. -/
def newSlugsOf (existing : Registry) (discovered : List String) : List String :=
  (discovered.foldl (fun acc s => if acc.contains s then acc else acc ++ [s]) []).filter
    (fun s => !hasKey existing s)

/-- Embedding of the registry-update phase of `main` (lines 423–462): every
new slug is enriched (the enrichment results are supplied as functions of the
slug) and inserted with today's date as both `first_seen_date` and
`last_checked_date`; afterwards every slug not among the new ones gets its
`last_checked_date` set to today, its other fields untouched. -/
def runUpdate (existing : Registry) (discovered : List String) (today : String)
    (companyName : String → String) (jobCount : String → Nat) : Registry :=
  let newSlugs := newSlugsOf existing discovered
  let reg := newSlugs.foldl (fun reg slug =>
    dictInsert reg slug ⟨companyName slug, today, today, toString (jobCount slug)⟩)
    existing
  reg.map (fun p =>
    if newSlugs.contains p.1 then p
    else (p.1, { p.2 with last_checked_date := today }))

/-- C6: with existing registry keys {a, b} and discovered set {b, c}, the
new-slug set the Batch Driver computes is exactly {c}; each pre-existing
entry (a and b) gets `last_checked_date` set to today with its
`first_seen_date` (and every other field) unchanged, and c is inserted with
today as both dates. -/
theorem C6_new_vs_existing_partition (ea eb : Entry) (today : String)
    (companyName : String → String) (jobCount : String → Nat) :
    newSlugsOf [("a", ea), ("b", eb)] ["b", "c"] = ["c"]
    ∧ lookupSlug (runUpdate [("a", ea), ("b", eb)] ["b", "c"] today companyName jobCount)
        "b" = some { eb with last_checked_date := today }
    ∧ lookupSlug (runUpdate [("a", ea), ("b", eb)] ["b", "c"] today companyName jobCount)
        "a" = some { ea with last_checked_date := today }
    ∧ lookupSlug (runUpdate [("a", ea), ("b", eb)] ["b", "c"] today companyName jobCount)
        "c" = some ⟨companyName "c", today, today, toString (jobCount "c")⟩ :=
  ⟨rfl, rfl, rfl, rfl⟩

/-- Header row of the primary registry file. -/
def csvHeader : List String :=
  ["slug", "company_name", "first_seen_date", "last_checked_date", "job_count"]

/-- Python `sorted(d.items(), key=lambda x: x[1]['first_seen_date'],
reverse=True)`: stable sort, descending by the `first_seen_date` string
(insertion sort with this inclusive comparator places equal keys in their
original order, reproducing Python's stable sort). -/
def sortByFirstSeenDesc (d : Registry) : Registry :=
  List.insertionSort (fun a b => b.2.first_seen_date ≤ a.2.first_seen_date) d

/-- The row `save_to_csv` writes for one entry. -/
def csvRow (p : String × Entry) : List String :=
  [p.1, p.2.company_name, p.2.first_seen_date, p.2.last_checked_date, p.2.job_count]

/-- Embedding of `save_to_csv` (lines 323–341): one header row, then one row
per entry, sorted by `first_seen_date` descending.  The file is modelled at
the `csv` module's record level (a list of rows of fields), which is what the
module's quoting round-trips. -/
def save_to_csv (d : Registry) : List (List String) :=
  csvHeader :: (sortByFirstSeenDesc d).map csvRow

/-- DictReader field access: pair the header with the row and look the key
up, with a default (the source's bracket access only ever runs with the
matching header present; `job_count` uses `row.get('job_count', '0')`). -/
def rowField (header row : List String) (k dflt : String) : String :=
  match (header.zip row).lookup k with
  | some v => v
  | none => dflt

/-- Embedding of `get_existing_slugs` (lines 20–35): `none` models a missing
file (fresh empty registry); otherwise the first row is the header and every
further row becomes an entry keyed by its `slug` field, rebuilt into a dict. -/
def get_existing_slugs (file : Option (List (List String))) : Registry :=
  match file with
  | none => []
  | some [] => []
  | some (header :: rows) =>
    rows.foldl (fun acc row =>
      dictInsert acc (rowField header row "slug" "")
        ⟨rowField header row "company_name" "",
         rowField header row "first_seen_date" "",
         rowField header row "last_checked_date" "",
         rowField header row "job_count" "0"⟩) []

theorem hasKey_eq_false_iff {d : Registry} {k : String} :
    hasKey d k = false ↔ k ∉ d.map Prod.fst := by
  rw [← Bool.not_eq_true]
  unfold hasKey
  rw [List.any_eq_true]
  simp only [beq_iff_eq, List.mem_map]

/-- Rebuilding a dict from pairs with pairwise-distinct keys appends them in
order. -/
theorem foldl_dictInsert_eq (l : Registry) :
    ∀ acc : Registry, ((acc ++ l).map Prod.fst).Nodup →
      l.foldl (fun acc p => dictInsert acc p.1 p.2) acc = acc ++ l := by
  induction l with
  | nil => intro acc _; simp
  | cons p t ih =>
    intro acc h
    have hfresh : hasKey acc p.1 = false := by
      rw [hasKey_eq_false_iff]
      intro hmem
      rw [List.map_append, List.nodup_append] at h
      exact h.2.2 hmem (by simp)
    have hstep : dictInsert acc p.1 p.2 = acc ++ [p] := by
      rw [dictInsert, hfresh]
      simp
    rw [List.foldl_cons, hstep, ih (acc ++ [p]) (by rwa [List.append_assoc])]
    simp

theorem keyUnique {d : Registry} (h : (d.map Prod.fst).Nodup) {s : String}
    {e e' : Entry} (h1 : (s, e) ∈ d) (h2 : (s, e') ∈ d) : e = e' := by
  induction d with
  | nil => cases h1
  | cons p t ih =>
    rw [List.map_cons, List.nodup_cons] at h
    rcases List.mem_cons.mp h1 with h1 | h1 <;> rcases List.mem_cons.mp h2 with h2 | h2
    · rw [← h1] at h2; exact congrArg Prod.snd h2.symm
    · exfalso
      exact h.1 (by rw [← h1]; exact List.mem_map.mpr ⟨(s, e'), h2, rfl⟩)
    · exfalso
      exact h.1 (by rw [← h2]; exact List.mem_map.mpr ⟨(s, e), h1, rfl⟩)
    · exact ih h.2 h1 h2

/-- Wholesale: reading back the written file reproduces the sorted entry
list itself. -/
theorem get_existing_of_save (d : Registry) (h : (d.map Prod.fst).Nodup) :
    get_existing_slugs (some (save_to_csv d)) = sortByFirstSeenDesc d := by
  have hperm : (sortByFirstSeenDesc d).Perm d := List.perm_insertionSort _ d
  have hnd : ((sortByFirstSeenDesc d).map Prod.fst).Nodup :=
    ((hperm.map Prod.fst).nodup_iff).mpr h
  rw [save_to_csv, get_existing_slugs, List.foldl_map]
  have hfun : (fun (acc : Registry) (p : String × Entry) =>
      dictInsert acc (rowField csvHeader (csvRow p) "slug" "")
        ⟨rowField csvHeader (csvRow p) "company_name" "",
         rowField csvHeader (csvRow p) "first_seen_date" "",
         rowField csvHeader (csvRow p) "last_checked_date" "",
         rowField csvHeader (csvRow p) "job_count" "0"⟩)
      = fun (acc : Registry) (p : String × Entry) => dictInsert acc p.1 p.2 := by
    funext acc p
    rfl
  rw [hfun]
  have := foldl_dictInsert_eq (sortByFirstSeenDesc d) [] (by simpa using hnd)
  simpa using this

/-- C7: writing a registry with `save_to_csv` and reloading it with
`get_existing_slugs` reproduces the entries up to order (a permutation), in
particular the same set of slugs, each carrying a `job_count` identical to
the one written. -/
theorem C7_roundtrip_persistence (d : Registry) (h : (d.map Prod.fst).Nodup) :
    (get_existing_slugs (some (save_to_csv d))).Perm d
    ∧ (∀ s, (∃ e, (s, e) ∈ get_existing_slugs (some (save_to_csv d)))
        ↔ ∃ e, (s, e) ∈ d)
    ∧ ∀ s e e', (s, e) ∈ d → (s, e') ∈ get_existing_slugs (some (save_to_csv d)) →
        e'.job_count = e.job_count := by
  have hperm : (get_existing_slugs (some (save_to_csv d))).Perm d := by
    rw [get_existing_of_save d h]
    exact List.perm_insertionSort _ d
  refine ⟨hperm, ?_, ?_⟩
  · intro s
    constructor
    · rintro ⟨e, he⟩; exact ⟨e, hperm.mem_iff.mp he⟩
    · rintro ⟨e, he⟩; exact ⟨e, hperm.mem_iff.mpr he⟩
  · intro s e e' hd hr
    have : (s, e') ∈ d := hperm.mem_iff.mp hr
    rw [keyUnique h this hd]

/-- Concrete two-entry registry for the C7 witness. -/
def registryC7 : Registry :=
  [("acme", ⟨"Acme", "2024-01-02", "2024-01-03", "5"⟩),
   ("globex", ⟨"Globex", "2024-01-01", "2024-01-03", "0"⟩)]

/-- Witness for C7 at a concrete two-entry registry. -/
theorem C7_roundtrip_persistence_witness :
    (get_existing_slugs (some (save_to_csv registryC7))).Perm registryC7 :=
  (C7_roundtrip_persistence registryC7 (by decide)).1

/-- Numeric value of an ASCII digit. -/
def digitVal (c : Char) : Nat := c.toNat - 48

/-- Digit-run accumulator for Python's `int(str)`: accepts single underscores
strictly between digits (Python's grouping rule), rejects anything else. -/
def parseDigitsAux : Nat → List Char → Option Nat
  | acc, [] => some acc
  | acc, '_' :: c :: rest =>
    if c.isDigit then parseDigitsAux (acc * 10 + digitVal c) rest else none
  | acc, c :: rest =>
    if c.isDigit then parseDigitsAux (acc * 10 + digitVal c) rest else none

/-- A nonempty digit run (with grouping underscores) after the sign. -/
def parseUnsigned : List Char → Option Nat
  | [] => none
  | c :: rest => if c.isDigit then parseDigitsAux (digitVal c) rest else none

/-- Model of Python `int(s)` for `str` input: surrounding whitespace stripped,
one optional sign, then a digit run; `none` models the `ValueError`. -/
def parsePyInt (s : String) : Option Int :=
  match pyStrip s.data with
  | '+' :: rest => (parseUnsigned rest).map (fun n => (n : Int))
  | '-' :: rest => (parseUnsigned rest).map (fun n => -(n : Int))
  | t => (parseUnsigned t).map (fun n => (n : Int))

/-- The source's `FEW_JOBS_THRESHOLD`. -/
def FEW_JOBS_THRESHOLD : Int := 5

/-- Entries whose `job_count` parses to exactly 0 (line 351); an entry whose
`job_count` raises in `int(...)` is skipped by the `except: pass`. -/
def zeroJobsFilter (d : Registry) : Registry :=
  d.filter (fun p => parsePyInt p.2.job_count == some 0)

/-- Entries whose `job_count` parses, is nonzero and is below the threshold
(line 353); unparseable entries are skipped by the `except: pass`. -/
def fewJobsFilter (d : Registry) : Registry :=
  d.filter (fun p =>
    match parsePyInt p.2.job_count with
    | some n => decide (n ≠ 0) && decide (n < FEW_JOBS_THRESHOLD)
    | none => false)

/-- Header row of the two derived files. -/
def filteredHeader : List String :=
  ["slug", "company_name", "first_seen_date", "job_count", "url"]

/-- The row `save_filtered_lists` writes for one entry. -/
def filteredRow (p : String × Entry) : List String :=
  [p.1, p.2.company_name, p.2.first_seen_date, p.2.job_count,
   "https://" ++ BASE_URL ++ "/" ++ p.1]

/-- Embedding of `save_filtered_lists` (lines 343–394): partition the
registry by parsed `job_count` (skipping entries whose `job_count` fails to
parse), then write each derived file — header plus one row per entry, sorted
by `first_seen_date` descending — but ONLY when its subset is nonempty
(`if zero_jobs:` / `if few_jobs:`); `none` models a file that is not touched
this run. -/
def save_filtered_lists (d : Registry) :
    Option (List (List String)) × Option (List (List String)) :=
  let zero_jobs := zeroJobsFilter d
  let few_jobs := fewJobsFilter d
  (if zero_jobs.isEmpty then none
   else some (filteredHeader :: (sortByFirstSeenDesc zero_jobs).map filteredRow),
   if few_jobs.isEmpty then none
   else some (filteredHeader :: (sortByFirstSeenDesc few_jobs).map filteredRow))

/-- The few-jobs subset as the claim words it: entries whose `job_count` is
between 1 and `threshold - 1` (i.e. 1..4). -/
def claimFewFilter (d : Registry) : Registry :=
  d.filter (fun p => (parsePyInt p.2.job_count).any
    (fun n => decide (1 ≤ n) && decide (n ≤ 4)))

/-- Registry whose only entry has 7 jobs, for the C8 counterexample. -/
def registryC8 : Registry :=
  [("acme", ⟨"Acme", "2024-01-01", "2024-01-02", "7"⟩)]

/-- Counterexample to C8 as stated: with a registry whose only entry has
`job_count` 7, BOTH filtered subsets are empty and neither derived file is
rewritten at the end of the run (the source writes them only under
`if zero_jobs:` / `if few_jobs:`), so the files are not "rewritten at the end
of every run" and a stale file would keep its old contents. -/
theorem C8_filtered_files_counterexample :
    save_filtered_lists registryC8 = (none, none) := by decide

/-- Amended C8: whenever a derived subset is nonempty, its file is rewritten
as a whole-file overwrite with one header row and one row per entry — the
zero-jobs file holding exactly the registry entries whose `job_count` is 0
and the few-jobs file exactly those whose `job_count` is between 1 and
`threshold - 1` (1..4) — and a file whose subset is empty is left untouched;
stated for registries whose `job_count` fields all parse as non-negative
integers (the data-model invariant). -/
theorem C8_filtered_files_amended (d : Registry)
    (hpos : ∀ p ∈ d, (parsePyInt p.2.job_count).any (fun n => decide (0 ≤ n)) = true) :
    ((save_filtered_lists d).1 =
      if (zeroJobsFilter d).isEmpty then none
      else some (filteredHeader :: (sortByFirstSeenDesc (zeroJobsFilter d)).map filteredRow))
    ∧ ((save_filtered_lists d).2 =
      if (claimFewFilter d).isEmpty then none
      else some (filteredHeader :: (sortByFirstSeenDesc (claimFewFilter d)).map filteredRow)) := by
  have hfew : fewJobsFilter d = claimFewFilter d := by
    unfold fewJobsFilter claimFewFilter
    apply List.filter_congr
    intro p hp
    have hh := hpos p hp
    cases hparse : parsePyInt p.2.job_count with
    | none =>
      rw [hparse] at hh
      simp [Option.any] at hh
    | some n =>
      rw [hparse] at hh
      simp only [Option.any, decide_eq_true_eq] at hh
      simp only [hparse, Option.any, FEW_JOBS_THRESHOLD]
      rw [Bool.eq_iff_iff]
      simp only [Bool.and_eq_true, decide_eq_true_eq]
      omega
  constructor
  · rfl
  · show (if (fewJobsFilter d).isEmpty then none
      else some (filteredHeader :: (sortByFirstSeenDesc (fewJobsFilter d)).map filteredRow))
      = _
    rw [hfew]

/-- Concrete registry with a zero-jobs, a few-jobs and a many-jobs entry. -/
def registryC8w : Registry :=
  [("zeta", ⟨"Z", "2024-01-03", "2024-01-04", "0"⟩),
   ("fewco", ⟨"F", "2024-01-02", "2024-01-04", "2"⟩),
   ("manyco", ⟨"M", "2024-01-01", "2024-01-04", "9"⟩)]

/-- Witness for the amended C8: at the concrete mixed registry the few-jobs
file is written with a header row plus exactly the 1..4-jobs entries. -/
theorem C8_filtered_files_amended_witness :
    (save_filtered_lists registryC8w).2
      = some (filteredHeader ::
          (sortByFirstSeenDesc (claimFewFilter registryC8w)).map filteredRow) := by
  have h := (C8_filtered_files_amended registryC8w (by decide)).2
  rw [h]
  decide

/-- C10: any entry whose `job_count` does not parse as an integer is silently
skipped by `save_filtered_lists` (the `except: pass` of lines 348–356): it is
in neither filtered subset, its row appears in neither derived file's data
rows, no error escapes (the embedding is total), and the primary registry
file written by `save_to_csv` still carries the entry's row. -/
theorem C10_unparseable_skipped (d : Registry) (s : String) (e : Entry)
    (hnd : (d.map Prod.fst).Nodup) (hmem : (s, e) ∈ d)
    (hbad : parsePyInt e.job_count = none) :
    (s, e) ∉ zeroJobsFilter d
    ∧ (s, e) ∉ fewJobsFilter d
    ∧ (∀ rows, (save_filtered_lists d).1 = some rows → filteredRow (s, e) ∉ rows.tail)
    ∧ (∀ rows, (save_filtered_lists d).2 = some rows → filteredRow (s, e) ∉ rows.tail)
    ∧ csvRow (s, e) ∈ save_to_csv d := by
  have hz : (s, e) ∉ zeroJobsFilter d := by
    intro hmemf
    have := (List.mem_filter.mp hmemf).2
    rw [hbad] at this
    simp at this
  have hf : (s, e) ∉ fewJobsFilter d := by
    intro hmemf
    have := (List.mem_filter.mp hmemf).2
    rw [hbad] at this
    simp at this
  refine ⟨hz, hf, ?_, ?_, ?_⟩
  · intro rows hrows
    by_cases he : (zeroJobsFilter d).isEmpty
    · rw [show (save_filtered_lists d).1
          = if (zeroJobsFilter d).isEmpty then none
            else some (filteredHeader ::
              (sortByFirstSeenDesc (zeroJobsFilter d)).map filteredRow) from rfl,
        if_pos he] at hrows
      exact Option.noConfusion hrows
    · rw [show (save_filtered_lists d).1
          = if (zeroJobsFilter d).isEmpty then none
            else some (filteredHeader ::
              (sortByFirstSeenDesc (zeroJobsFilter d)).map filteredRow) from rfl,
        if_neg he] at hrows
      cases hrows
      intro hrow
      simp only [List.tail_cons, List.mem_map] at hrow
      obtain ⟨p, hp, heq⟩ := hrow
      have hps : p.1 = s := by
        simp only [filteredRow] at heq
        exact (List.cons.injEq _ _ _ _).mp heq |>.1
      have hpz : p ∈ zeroJobsFilter d :=
        (List.perm_insertionSort _ (zeroJobsFilter d)).mem_iff.mp hp
      have hpd : p ∈ d := (List.mem_filter.mp hpz).1
      have hpe : p.2 = e := by
        apply keyUnique hnd (s := s)
        · rw [← hps]; exact hpd
        · exact hmem
      apply hz
      have : p = (s, e) := Prod.ext hps hpe
      rwa [this] at hpz
  · intro rows hrows
    by_cases he : (fewJobsFilter d).isEmpty
    · rw [show (save_filtered_lists d).2
          = if (fewJobsFilter d).isEmpty then none
            else some (filteredHeader ::
              (sortByFirstSeenDesc (fewJobsFilter d)).map filteredRow) from rfl,
        if_pos he] at hrows
      exact Option.noConfusion hrows
    · rw [show (save_filtered_lists d).2
          = if (fewJobsFilter d).isEmpty then none
            else some (filteredHeader ::
              (sortByFirstSeenDesc (fewJobsFilter d)).map filteredRow) from rfl,
        if_neg he] at hrows
      cases hrows
      intro hrow
      simp only [List.tail_cons, List.mem_map] at hrow
      obtain ⟨p, hp, heq⟩ := hrow
      have hps : p.1 = s := by
        simp only [filteredRow] at heq
        exact (List.cons.injEq _ _ _ _).mp heq |>.1
      have hpz : p ∈ fewJobsFilter d :=
        (List.perm_insertionSort _ (fewJobsFilter d)).mem_iff.mp hp
      have hpd : p ∈ d := (List.mem_filter.mp hpz).1
      have hpe : p.2 = e := by
        apply keyUnique hnd (s := s)
        · rw [← hps]; exact hpd
        · exact hmem
      apply hf
      have : p = (s, e) := Prod.ext hps hpe
      rwa [this] at hpz
  · have : (s, e) ∈ sortByFirstSeenDesc d :=
      (List.perm_insertionSort _ d).mem_iff.mpr hmem
    exact List.mem_cons_of_mem _ (List.mem_map.mpr ⟨(s, e), this, rfl⟩)

/-- The unparseable entry used by the C10 witness. -/
def entryC10 : Entry := ⟨"B", "2024-01-01", "2024-01-03", "N/A"⟩

/-- Concrete registry with one parseable and one unparseable entry. -/
def registryC10 : Registry :=
  [("good", ⟨"G", "2024-01-02", "2024-01-03", "0"⟩), ("bad", entryC10)]

/-- Witness for C10: the `N/A` entry lands in neither filtered subset yet its
row is still written to the primary registry file. -/
theorem C10_unparseable_skipped_witness :
    ("bad", entryC10) ∉ zeroJobsFilter registryC10
    ∧ ("bad", entryC10) ∉ fewJobsFilter registryC10
    ∧ csvRow ("bad", entryC10) ∈ save_to_csv registryC10 := by
  have h := C10_unparseable_skipped registryC10 "bad" entryC10
    (by decide) (by decide) (by decide)
  exact ⟨h.1, h.2.1, h.2.2.2.2⟩

/-- Embedding of `google_custom_search` (lines 170–187): the underlying HTTP
exchange is supplied explicitly — `none` models a transport failure
(connection error or timeout raised by `requests.get`), `some (status, body)`
a completed exchange whose parsed JSON body is `body` (`none` for a
malformed-JSON body).  `raise_for_status()` raises for statuses 400–599, and
every `RequestException` (transport, HTTP error, JSON decode error) is caught
and turned into `None`. -/
def google_custom_search (transport : Option (Nat × Option SearchResponse)) :
    Option SearchResponse :=
  match transport with
  | none => none
  | some (status, body) => if 400 ≤ status ∧ status < 600 then none else body

/-- C9: on a transport failure or a non-success (4xx/5xx) HTTP status the
Search Client returns the absent result rather than raising (the embedding is
a total function into `Option`), and on success it passes the parsed body
through — so a single failed search call cannot abort the run. -/
theorem C9_search_failure_degrades :
    google_custom_search none = none
    ∧ (∀ st (body : Option SearchResponse), 400 ≤ st → st < 600 →
        google_custom_search (some (st, body)) = none)
    ∧ (∀ st (r : SearchResponse), ¬ (400 ≤ st ∧ st < 600) →
        google_custom_search (some (st, some r)) = some r) := by
  refine ⟨rfl, ?_, ?_⟩
  · intro st body h1 h2
    simp [google_custom_search, h1, h2]
  · intro st r h
    simp [google_custom_search, h]

/-- Witness for C9: a concrete 403 answer degrades to no result, a concrete
200 answer passes its items through. -/
theorem C9_search_failure_degrades_witness :
    google_custom_search (some (403, some ⟨some [], none⟩)) = none
    ∧ google_custom_search (some (200, some ⟨some [], none⟩)) = some ⟨some [], none⟩ :=
  ⟨C9_search_failure_degrades.2.1 403 (some ⟨some [], none⟩) (by decide) (by decide),
   C9_search_failure_degrades.2.2 200 ⟨some [], none⟩ (by decide)⟩

end Ashby
